import Mathlib

/-!
Shallow embedding of `src/Singleton.py`: two thread-safe singleton
implementations (a `DatabaseConnection` class intercepting `__new__`, and a
`singleton` decorator applied to a `Logger` class), each using double-checked
locking around a lazily created instance.

Object identity is modelled by natural-number ids drawn from an allocation
counter; a heap maps ids to object contents.  Sequential Python code is
embedded as explicit state passing; the lock is a no-op sequentially, but the
double check of the source is kept (the inner re-check mirrors the check made
after acquiring the lock).  Constructor side effects are observed through
explicit execution counters, matching the spec's instrumentation (a counter
incremented inside the constructor).  For the concurrency claims, the
double-checked locking protocol is embedded as a small interleaving transition
system over any number of threads.
-/

namespace Singleton

/-! ### Generic decorator cell: `get_instance` from `singleton`

The closure produced by `singleton(cls)`:

    def get_instance(*args, **kwargs):
        if cls not in instances:
            with lock:
                if cls not in instances:
                    instances[cls] = cls(*args, **kwargs)
        return instances[cls]

Each decorated class has its own `instances` dict and `lock`, and the dict is
only ever indexed at `cls`, so one closure's cell is `Option α`.  The
constructor `cls(*args, **kwargs)` may raise: it is embedded as a state
function returning `Except ε α`.  The result is the returned value (or the
propagated error), the cell after the call, and the constructor state after
the call. -/

def get_instance {A σ ε α : Type} (ctor : A → σ → Except ε α × σ)
    (cell : Option α) (args : A) (s : σ) : Except ε α × Option α × σ :=
  match cell with
  | some v => (.ok v, some v, s)
  | none =>
    -- `with lock:` — sequentially the acquire is a no-op; re-check under it.
    match cell with
    | some v => (.ok v, some v, s)
    | none =>
      match ctor args s with
      | (.ok v, s') => (.ok v, some v, s')
      | (.error e, s') => (.error e, none, s')

/-- A sequence of `get_instance` calls on one cell, one argument tuple per
call, threading the cell and the constructor state.  Returns the final cell
and state. -/
def foldGets {A σ ε α : Type} (ctor : A → σ → Except ε α × σ) :
    List A → Option α → σ → Option α × σ
  | [], cell, s => (cell, s)
  | a :: rest, cell, s =>
    let r := get_instance ctor cell a s
    foldGets ctor rest r.2.1 r.2.2

/-! ### `DatabaseConnection` (singleton via `__new__`) -/

/-- Attribute record of a `DatabaseConnection` object.  Attributes are
`Option`s because a freshly allocated object (from `super().__new__`) has no
attributes until `__init__`'s guarded body runs. -/
structure DBObj where
  connection_string : Option String
  connected : Option Bool
deriving DecidableEq, Repr

/-- Class-level state of `DatabaseConnection` plus the object heap.
`initCount` counts executions of the guarded body of `__init__` — the
construction side effect observed by the spec's scenarios. -/
structure DBWorld where
  _instance : Option Nat
  _initialized : Bool
  alloc : Nat
  heap : Nat → Option DBObj
  initCount : Nat

/-- The world before any call: `_instance = None`, `_initialized = False`,
empty heap. -/
def dbWorld0 : DBWorld :=
  { _instance := none, _initialized := false, alloc := 0,
    heap := fun _ => none, initCount := 0 }

/-- Embeds `DatabaseConnection.__new__`: double-checked lazy allocation of the single
instance.  `super().__new__(cls)` allocates a fresh bare object. -/
def DatabaseConnection_new (w : DBWorld) : Nat × DBWorld :=
  match w._instance with
  | some i => (i, w)
  | none =>
    -- `with cls._lock:` — re-check under the lock.
    match w._instance with
    | some i => (i, w)
    | none =>
      let i := w.alloc
      (i, { w with
              alloc := i + 1,
              heap := Function.update w.heap i (some ⟨none, none⟩),
              _instance := some i })

/-- Embeds `DatabaseConnection.__init__`: runs on every construction call, but its
body is guarded by the class-level `_initialized` flag. -/
def DatabaseConnection_init (i : Nat) (w : DBWorld) : DBWorld :=
  if w._initialized then w
  else
    { w with
        heap := Function.update w.heap i (some ⟨some "localhost:5432", some true⟩),
        _initialized := true,
        initCount := w.initCount + 1 }

/-- Embeds `DatabaseConnection()`: Python's `type.__call__` runs `__new__` and then
`__init__` on the returned instance. -/
def DatabaseConnection_call (w : DBWorld) : Nat × DBWorld :=
  let r := DatabaseConnection_new w
  (r.1, DatabaseConnection_init r.1 r.2)

/-- Embeds `self.execute_query(query)`: builds the message string; touches no state. -/
def execute_query (_self : Nat) (query : String) (w : DBWorld) :
    String × DBWorld :=
  ("Executing query: " ++ query, w)

/-- Embeds `self.get_connection_info()`: reads `self.connection_string`. -/
def connection_string_of (i : Nat) (w : DBWorld) : Option String :=
  match w.heap i with
  | some o => o.connection_string
  | none => none

/-- Runs `n` successive `DatabaseConnection()` calls, collecting the returned
handles. -/
def dbIterate : Nat → DBWorld → List Nat × DBWorld
  | 0, w => ([], w)
  | n + 1, w =>
    let r := DatabaseConnection_call w
    let rest := dbIterate n r.2
    (r.1 :: rest.1, rest.2)

/-- The world after the first `DatabaseConnection()` call. -/
def dbWorld1 : DBWorld := (DatabaseConnection_call dbWorld0).2

/-! ### `Logger` (singleton via the decorator) -/

/-- Errors the embedded Python can raise.  `typeError` stands for the
`TypeError` Python raises when `Logger.__init__` (which accepts only `self`)
is called with extra arguments. -/
inductive PyErr where
  | typeError
deriving DecidableEq, Repr

/-- State of the decorated `Logger`: the closure's cell `instances[Logger]`,
the allocator, the heap of `logs` attributes, and a counter of
`Logger.__init__` executions (the construction side effect). -/
structure LogWorld where
  cell : Option Nat
  alloc : Nat
  heap : Nat → Option (List String)
  ctorCount : Nat

/-- The world right after decoration: empty cell, nothing allocated. -/
def logWorld0 : LogWorld :=
  { cell := none, alloc := 0, heap := fun _ => none, ctorCount := 0 }

/-- Embeds `Logger(*args)`: the decorator's `get_instance` with the `Logger` class as
constructor.  `Logger.__init__(self)` takes no arguments, so a non-empty
argument list raises `TypeError` before anything is stored; with no arguments
it allocates a fresh object and sets `self.logs = []`. -/
def Logger_call_args (args : List String) (w : LogWorld) :
    Except PyErr Nat × LogWorld :=
  match w.cell with
  | some i => (.ok i, w)
  | none =>
    -- `with lock:` — re-check under the lock.
    match w.cell with
    | some i => (.ok i, w)
    | none =>
      if args.isEmpty then
        let i := w.alloc
        (.ok i, { w with
                    cell := some i,
                    alloc := i + 1,
                    heap := Function.update w.heap i (some []),
                    ctorCount := w.ctorCount + 1 })
      else (.error .typeError, w)

/-- Embeds `Logger()` with no arguments, which never raises. -/
def Logger_call (w : LogWorld) : Nat × LogWorld :=
  match w.cell with
  | some i => (i, w)
  | none =>
    match w.cell with
    | some i => (i, w)
    | none =>
      let i := w.alloc
      (i, { w with
              cell := some i,
              alloc := i + 1,
              heap := Function.update w.heap i (some []),
              ctorCount := w.ctorCount + 1 })

/-- The world after the first `Logger()` call. -/
def logWorld1 : LogWorld := (Logger_call logWorld0).2

/-- Embeds `handle.log(message)`: appends to the `logs` attribute of the object the
handle refers to. -/
def Logger_log (i : Nat) (m : String) (w : LogWorld) : LogWorld :=
  { w with heap := Function.update w.heap i ((w.heap i).map (· ++ [m])) }

/-- Embeds `handle.get_logs()`. -/
def get_logs (i : Nat) (w : LogWorld) : Option (List String) := w.heap i

/-- A client-side event against the decorated `Logger`: obtain a handle via
`Logger()`, or log a message through a handle just obtained from `Logger()`
(all such handles are the occupying instance). -/
inductive LEvent where
  | create
  | log (m : String)

/-- Run a sequence of client events.  A `log` event calls `Logger()` for a
handle and logs through it. -/
def runEvents : List LEvent → LogWorld → LogWorld
  | [], w => w
  | .create :: es, w => runEvents es (Logger_call w).2
  | .log m :: es, w =>
    let r := Logger_call w
    runEvents es (Logger_log r.1 m r.2)

/-- The messages logged by a sequence of events, in order. -/
def eventMsgs : List LEvent → List String
  | [] => []
  | .create :: es => eventMsgs es
  | .log m :: es => m :: eventMsgs es

/-! ### The `singleton` decorator across several decorated classes

Each application of `singleton` to a class creates its own `instances` dict
and its own `lock`, and the dict of a closure is only ever indexed at that
closure's class.  The union of all these one-key dicts is a map from class
key to `Option` instance id; instance ids are drawn from a shared allocator
(distinct Python objects have distinct identities). -/

/-- Holds `instances[k]` for every decorated class key `k`, plus the allocator. -/
structure DecWorld where
  cells : Nat → Option Nat
  alloc : Nat

/-- The state after decorating the classes, before any call. -/
def decWorld0 : DecWorld := { cells := fun _ => none, alloc := 0 }

/-- The `get_instance` closure of the class with key `k`: double-checked
lookup of `instances[k]`, constructing a fresh instance when absent. -/
def singletonGet (k : Nat) (w : DecWorld) : Nat × DecWorld :=
  match w.cells k with
  | some v => (v, w)
  | none =>
    -- `with lock:` — this closure's own lock; re-check under it.
    match w.cells k with
    | some v => (v, w)
    | none =>
      let v := w.alloc
      (v, { cells := Function.update w.cells k (some v), alloc := v + 1 })

/-- A constructor that fails on its first invocation and succeeds on its
second (state: whether it has been invoked before) — the spec's
failure-then-retry scenario. -/
def retryCtor : Unit → Bool → Except PyErr Nat × Bool :=
  fun _ tried => if tried then (.ok 0, tried) else (.error .typeError, true)

/-- A constructor that stores its construction argument, making the returned
instance show which arguments were used. -/
def argCtor : Nat → Unit → Except PyErr Nat × Unit :=
  fun a s => (.ok a, s)

/-! ### Concurrent double-checked locking, as an interleaving system

Both variants share the protocol

    if cell is empty:          -- fast-path read, no lock
        acquire lock
        if cell is empty:      -- re-check under the lock
            v := construct()   -- runs the payload constructor
            cell := v          -- store
        release lock
    return cell contents

A thread is a program counter through this protocol; `counter` counts
constructor executions; constructed instances are identified by the value of
`counter` when the constructor ran.  Any interleaving of any number of
threads is a path of the step relation. -/

/-- Program counter of one caller of `getOrCreate`. -/
inductive PC where
  | start
  | waitLock
  | lockedCheck
  | constructing
  | storing (id : Nat)
  | exitRelease (v : Nat)
  | finished (v : Nat)
deriving DecidableEq, Repr

/-- Global state: the cell, the constructor-execution counter, the lock
owner, and every thread's program counter. -/
structure Sys (n : Nat) where
  cell : Option Nat
  counter : Nat
  lock : Option (Fin n)
  pc : Fin n → PC
deriving DecidableEq

/-- All threads at `start`, empty cell, free lock, no constructions. -/
def initSys (n : Nat) : Sys n :=
  { cell := none, counter := 0, lock := none, pc := fun _ => .start }

/-- One atomic step of thread `t`; `none` when `t` cannot step (it is
blocked on the lock or has returned). -/
def stepFn {n : Nat} (t : Fin n) (s : Sys n) : Option (Sys n) :=
  match s.pc t with
  | .start =>
    match s.cell with
    | some v => some { s with pc := Function.update s.pc t (.finished v) }
    | none => some { s with pc := Function.update s.pc t .waitLock }
  | .waitLock =>
    match s.lock with
    | none => some { s with lock := some t, pc := Function.update s.pc t .lockedCheck }
    | some _ => none
  | .lockedCheck =>
    match s.cell with
    | some v => some { s with pc := Function.update s.pc t (.exitRelease v) }
    | none => some { s with pc := Function.update s.pc t .constructing }
  | .constructing =>
    some { s with counter := s.counter + 1,
                  pc := Function.update s.pc t (.storing s.counter) }
  | .storing id =>
    some { s with cell := some id, pc := Function.update s.pc t (.exitRelease id) }
  | .exitRelease v =>
    some { s with lock := none, pc := Function.update s.pc t (.finished v) }
  | .finished _ => none

/-- Some thread takes a step. -/
def SysStep {n : Nat} (s s' : Sys n) : Prop := ∃ t, stepFn t s = some s'

/-- States reachable from the initial state by interleaving. -/
def SysReach {n : Nat} (s : Sys n) : Prop :=
  Relation.ReflTransGen SysStep (initSys n) s

/-- Program counters held while owning the lock. -/
def holdsLockB : PC → Bool
  | .lockedCheck | .constructing | .storing _ | .exitRelease _ => true
  | _ => false

/-- Program counters in the middle of a store. -/
def isStoringB : PC → Bool
  | .storing _ => true
  | _ => false

/-- Inductive invariant of the double-checked locking system:
mutual exclusion, the bookkeeping tying the counter to the cell and to
in-flight constructions, and agreement of every returned value with the
cell. -/
def SysInv {n : Nat} (s : Sys n) : Prop :=
  (∀ t, holdsLockB (s.pc t) = true ↔ s.lock = some t) ∧
  (∀ t, s.pc t = .constructing → s.cell = none ∧ s.counter = 0) ∧
  (∀ t id, s.pc t = .storing id → s.cell = none ∧ s.counter = 1 ∧ id = 0) ∧
  (s.cell = none → (∀ t, isStoringB (s.pc t) = false) → s.counter = 0) ∧
  (∀ v, s.cell = some v → s.counter = 1 ∧ v = 0) ∧
  (∀ t v, s.pc t = .exitRelease v ∨ s.pc t = .finished v → s.cell = some v)

theorem holdsLockB_of_isStoringB {p : PC} (h : isStoringB p = true) :
    holdsLockB p = true := by
  cases p <;> simp_all [isStoringB, holdsLockB]

theorem sysInv_init (n : Nat) : SysInv (initSys n) := by
  refine ⟨?_, ?_, ?_, ?_, ?_, ?_⟩ <;>
    simp [initSys, holdsLockB, isStoringB]

theorem sysInv_step {n : Nat} {s s' : Sys n} (t : Fin n)
    (h : stepFn t s = some s') (hI : SysInv s) : SysInv s' := by
  obtain ⟨I1, I2, I3, I4, I5, I6⟩ := hI
  cases hpc : s.pc t with
  | start =>
    cases hc : s.cell with
    | some v =>
      simp only [stepFn, hpc, hc, Option.some.injEq] at h
      subst h
      unfold SysInv
      dsimp only
      refine ⟨?_, ?_, ?_, ?_, ?_, ?_⟩
      · intro u
        by_cases hu : u = t
        · rw [hu, Function.update_same]
          simp only [holdsLockB, Bool.false_eq_true, false_iff]
          intro hlk
          have h2 := (I1 t).mpr hlk
          rw [hpc] at h2
          exact Bool.noConfusion h2
        · rw [Function.update_noteq hu]; exact I1 u
      · intro u hu
        by_cases h' : u = t
        · rw [h', Function.update_same] at hu; exact PC.noConfusion hu
        · rw [Function.update_noteq h'] at hu
          have h2 := I2 u hu
          rw [hc] at h2
          exact h2
      · intro u id hu
        by_cases h' : u = t
        · rw [h', Function.update_same] at hu; exact PC.noConfusion hu
        · rw [Function.update_noteq h'] at hu
          have h2 := I3 u id hu
          rw [hc] at h2
          exact h2
      · intro hcell; exact Option.noConfusion hcell
      · intro v1 hv
        injection hv with hv
        subst hv
        exact I5 _ hc
      · intro u v' hu
        by_cases h' : u = t
        · rw [h', Function.update_same] at hu
          rcases hu with hu | hu
          · exact PC.noConfusion hu
          · injection hu with hv; rw [hv]
        · rw [Function.update_noteq h'] at hu
          exact hc.symm.trans (I6 u v' hu)
    | none =>
      simp only [stepFn, hpc, hc, Option.some.injEq] at h
      subst h
      unfold SysInv
      dsimp only
      refine ⟨?_, ?_, ?_, ?_, ?_, ?_⟩
      · intro u
        by_cases hu : u = t
        · rw [hu, Function.update_same]
          simp only [holdsLockB, Bool.false_eq_true, false_iff]
          intro hlk
          have h2 := (I1 t).mpr hlk
          rw [hpc] at h2
          exact Bool.noConfusion h2
        · rw [Function.update_noteq hu]; exact I1 u
      · intro u hu
        by_cases h' : u = t
        · rw [h', Function.update_same] at hu; exact PC.noConfusion hu
        · rw [Function.update_noteq h'] at hu
          exact ⟨rfl, (I2 u hu).2⟩
      · intro u id hu
        by_cases h' : u = t
        · rw [h', Function.update_same] at hu; exact PC.noConfusion hu
        · rw [Function.update_noteq h'] at hu
          exact ⟨rfl, (I3 u id hu).2.1, (I3 u id hu).2.2⟩
      · intro _ hns
        refine I4 hc ?_
        intro u
        by_cases h' : u = t
        · rw [h', hpc]; rfl
        · have h2 := hns u
          rwa [Function.update_noteq h'] at h2
      · intro v1 hv; exact Option.noConfusion hv
      · intro u v' hu
        by_cases h' : u = t
        · rw [h', Function.update_same] at hu
          rcases hu with hu | hu <;> exact PC.noConfusion hu
        · rw [Function.update_noteq h'] at hu
          exact hc ▸ I6 u v' hu
  | waitLock =>
    cases hl : s.lock with
    | some u' =>
      rw [stepFn, hpc, hl] at h
      exact absurd h (by simp)
    | none =>
      simp only [stepFn, hpc, hl, Option.some.injEq] at h
      subst h
      unfold SysInv
      dsimp only
      refine ⟨?_, ?_, ?_, ?_, ?_, ?_⟩
      · intro u
        by_cases hu : u = t
        · rw [hu, Function.update_same]
          simp [holdsLockB]
        · rw [Function.update_noteq hu]
          constructor
          · intro hb
            have h2 := (I1 u).mp hb
            rw [hl] at h2
            exact Option.noConfusion h2
          · intro hb
            injection hb with hb
            exact absurd hb.symm hu
      · intro u hu
        by_cases h' : u = t
        · rw [h', Function.update_same] at hu; exact PC.noConfusion hu
        · rw [Function.update_noteq h'] at hu; exact I2 u hu
      · intro u id hu
        by_cases h' : u = t
        · rw [h', Function.update_same] at hu; exact PC.noConfusion hu
        · rw [Function.update_noteq h'] at hu; exact I3 u id hu
      · intro hcell hns
        refine I4 hcell ?_
        intro u
        by_cases h' : u = t
        · rw [h', hpc]; rfl
        · have h2 := hns u
          rwa [Function.update_noteq h'] at h2
      · exact I5
      · intro u v' hu
        by_cases h' : u = t
        · rw [h', Function.update_same] at hu
          rcases hu with hu | hu <;> exact PC.noConfusion hu
        · rw [Function.update_noteq h'] at hu; exact I6 u v' hu
  | lockedCheck =>
    have hlt : s.lock = some t := (I1 t).mp (by rw [hpc]; rfl)
    have huniq : ∀ u, holdsLockB (s.pc u) = true → u = t := by
      intro u hu
      have h2 := (I1 u).mp hu
      rw [hlt] at h2
      injection h2 with h2
      exact h2.symm
    cases hc : s.cell with
    | some v =>
      simp only [stepFn, hpc, hc, Option.some.injEq] at h
      subst h
      unfold SysInv
      dsimp only
      refine ⟨?_, ?_, ?_, ?_, ?_, ?_⟩
      · intro u
        by_cases hu : u = t
        · rw [hu, Function.update_same, hlt]
          simp [holdsLockB]
        · rw [Function.update_noteq hu]; exact I1 u
      · intro u hu
        by_cases h' : u = t
        · rw [h', Function.update_same] at hu; exact PC.noConfusion hu
        · rw [Function.update_noteq h'] at hu
          have h2 := I2 u hu
          rw [hc] at h2
          exact h2
      · intro u id hu
        by_cases h' : u = t
        · rw [h', Function.update_same] at hu; exact PC.noConfusion hu
        · rw [Function.update_noteq h'] at hu
          have h2 := I3 u id hu
          rw [hc] at h2
          exact h2
      · intro hcell; exact Option.noConfusion hcell
      · intro v1 hv
        injection hv with hv
        subst hv
        exact I5 _ hc
      · intro u v' hu
        by_cases h' : u = t
        · rw [h', Function.update_same] at hu
          rcases hu with hu | hu
          · injection hu with hv; rw [hv]
          · exact PC.noConfusion hu
        · rw [Function.update_noteq h'] at hu
          exact hc.symm.trans (I6 u v' hu)
    | none =>
      simp only [stepFn, hpc, hc, Option.some.injEq] at h
      subst h
      have hcnt : s.counter = 0 := by
        refine I4 hc ?_
        intro u
        cases hb : isStoringB (s.pc u) with
        | false => rfl
        | true =>
          have hu := huniq u (holdsLockB_of_isStoringB hb)
          rw [hu, hpc] at hb
          exact Bool.noConfusion hb.symm
      unfold SysInv
      dsimp only
      refine ⟨?_, ?_, ?_, ?_, ?_, ?_⟩
      · intro u
        by_cases hu : u = t
        · rw [hu, Function.update_same, hlt]
          simp [holdsLockB]
        · rw [Function.update_noteq hu]; exact I1 u
      · intro u hu
        by_cases h' : u = t
        · exact ⟨rfl, hcnt⟩
        · rw [Function.update_noteq h'] at hu
          exact absurd (huniq u (by rw [hu]; rfl)) h'
      · intro u id hu
        by_cases h' : u = t
        · rw [h', Function.update_same] at hu; exact PC.noConfusion hu
        · rw [Function.update_noteq h'] at hu
          exact absurd (huniq u (by rw [hu]; rfl)) h'
      · intro _ _; exact hcnt
      · intro v1 hv; exact Option.noConfusion hv
      · intro u v' hu
        by_cases h' : u = t
        · rw [h', Function.update_same] at hu
          rcases hu with hu | hu <;> exact PC.noConfusion hu
        · rw [Function.update_noteq h'] at hu
          exact hc ▸ I6 u v' hu
  | constructing =>
    have hlt : s.lock = some t := (I1 t).mp (by rw [hpc]; rfl)
    have huniq : ∀ u, holdsLockB (s.pc u) = true → u = t := by
      intro u hu
      have h2 := (I1 u).mp hu
      rw [hlt] at h2
      injection h2 with h2
      exact h2.symm
    obtain ⟨hc, hcnt⟩ := I2 t hpc
    simp only [stepFn, hpc, Option.some.injEq] at h
    subst h
    unfold SysInv
    dsimp only
    refine ⟨?_, ?_, ?_, ?_, ?_, ?_⟩
    · intro u
      by_cases hu : u = t
      · rw [hu, Function.update_same, hlt]
        simp [holdsLockB]
      · rw [Function.update_noteq hu]; exact I1 u
    · intro u hu
      by_cases h' : u = t
      · rw [h', Function.update_same] at hu; exact PC.noConfusion hu
      · rw [Function.update_noteq h'] at hu
        exact absurd (huniq u (by rw [hu]; rfl)) h'
    · intro u id hu
      by_cases h' : u = t
      · rw [h', Function.update_same] at hu
        injection hu with hid
        exact ⟨hc, by rw [hcnt], by rw [← hid, hcnt]⟩
      · rw [Function.update_noteq h'] at hu
        exact absurd (huniq u (by rw [hu]; rfl)) h'
    · intro _ hns
      have h2 := hns t
      rw [Function.update_same] at h2
      simp [isStoringB] at h2
    · intro v1 hv
      rw [hc] at hv
      exact Option.noConfusion hv
    · intro u v' hu
      by_cases h' : u = t
      · rw [h', Function.update_same] at hu
        rcases hu with hu | hu <;> exact PC.noConfusion hu
      · rw [Function.update_noteq h'] at hu
        exact I6 u v' hu
  | storing id =>
    have hlt : s.lock = some t := (I1 t).mp (by rw [hpc]; rfl)
    have huniq : ∀ u, holdsLockB (s.pc u) = true → u = t := by
      intro u hu
      have h2 := (I1 u).mp hu
      rw [hlt] at h2
      injection h2 with h2
      exact h2.symm
    obtain ⟨hc, hcnt, hid⟩ := I3 t id hpc
    simp only [stepFn, hpc, Option.some.injEq] at h
    subst h
    unfold SysInv
    dsimp only
    refine ⟨?_, ?_, ?_, ?_, ?_, ?_⟩
    · intro u
      by_cases hu : u = t
      · rw [hu, Function.update_same, hlt]
        simp [holdsLockB]
      · rw [Function.update_noteq hu]; exact I1 u
    · intro u hu
      by_cases h' : u = t
      · rw [h', Function.update_same] at hu; exact PC.noConfusion hu
      · rw [Function.update_noteq h'] at hu
        exact absurd (huniq u (by rw [hu]; rfl)) h'
    · intro u id' hu
      by_cases h' : u = t
      · rw [h', Function.update_same] at hu; exact PC.noConfusion hu
      · rw [Function.update_noteq h'] at hu
        exact absurd (huniq u (by rw [hu]; rfl)) h'
    · intro hcell; exact Option.noConfusion hcell
    · intro v1 hv
      injection hv with hv
      subst hv
      exact ⟨hcnt, hid⟩
    · intro u v' hu
      by_cases h' : u = t
      · rw [h', Function.update_same] at hu
        rcases hu with hu | hu
        · injection hu with hv; rw [hv]
        · exact PC.noConfusion hu
      · rw [Function.update_noteq h'] at hu
        have h2 := I6 u v' hu
        rw [hc] at h2
        exact Option.noConfusion h2
  | exitRelease v =>
    have hlt : s.lock = some t := (I1 t).mp (by rw [hpc]; rfl)
    have huniq : ∀ u, holdsLockB (s.pc u) = true → u = t := by
      intro u hu
      have h2 := (I1 u).mp hu
      rw [hlt] at h2
      injection h2 with h2
      exact h2.symm
    have hc : s.cell = some v := I6 t v (Or.inl hpc)
    simp only [stepFn, hpc, Option.some.injEq] at h
    subst h
    unfold SysInv
    dsimp only
    refine ⟨?_, ?_, ?_, ?_, ?_, ?_⟩
    · intro u
      by_cases hu : u = t
      · rw [hu, Function.update_same]
        simp [holdsLockB]
      · rw [Function.update_noteq hu]
        constructor
        · intro hb
          exact absurd (huniq u hb) hu
        · intro hb; exact Option.noConfusion hb
    · intro u hu
      by_cases h' : u = t
      · rw [h', Function.update_same] at hu; exact PC.noConfusion hu
      · rw [Function.update_noteq h'] at hu; exact I2 u hu
    · intro u id hu
      by_cases h' : u = t
      · rw [h', Function.update_same] at hu; exact PC.noConfusion hu
      · rw [Function.update_noteq h'] at hu; exact I3 u id hu
    · intro hcell
      rw [hc] at hcell
      exact Option.noConfusion hcell
    · exact I5
    · intro u v' hu
      by_cases h' : u = t
      · rw [h', Function.update_same] at hu
        rcases hu with hu | hu
        · exact PC.noConfusion hu
        · injection hu with hv
          rw [hc, hv]
      · rw [Function.update_noteq h'] at hu; exact I6 u v' hu
  | finished v =>
    rw [stepFn, hpc] at h
    exact absurd h (by simp)


theorem sysInv_reach {n : Nat} {s : Sys n} (h : SysReach s) : SysInv s := by
  induction h with
  | refl => exact sysInv_init n
  | tail _ hstep ih =>
    obtain ⟨t, ht⟩ := hstep
    exact sysInv_step t ht ih

/-! ### Helper lemmas -/

theorem dbCall_occupied (w : DBWorld) (i : Nat) (h1 : w._instance = some i)
    (h2 : w._initialized = true) : DatabaseConnection_call w = (i, w) := by
  simp [DatabaseConnection_call, DatabaseConnection_new, DatabaseConnection_init, h1, h2]

theorem dbCall_instance (w : DBWorld) (i : Nat) (h1 : w._instance = some i) :
    (DatabaseConnection_call w).2._instance = some i := by
  have hnew : DatabaseConnection_new w = (i, w) := by
    simp [DatabaseConnection_new, h1]
  simp only [DatabaseConnection_call, hnew, DatabaseConnection_init]
  split
  · exact h1
  · exact h1

theorem loggerCall_occupied (w : LogWorld) (i : Nat) (h : w.cell = some i) :
    Logger_call w = (i, w) := by
  simp [Logger_call, h]

theorem dbCall_dbWorld0 : DatabaseConnection_call dbWorld0 = (0, dbWorld1) := rfl

theorem dbCall_dbWorld1 : DatabaseConnection_call dbWorld1 = (0, dbWorld1) :=
  dbCall_occupied dbWorld1 0 rfl rfl

theorem dbIterate_dbWorld1 (n : Nat) :
    dbIterate n dbWorld1 = (List.replicate n 0, dbWorld1) := by
  induction n with
  | zero => rfl
  | succ n ih => simp [dbIterate, dbCall_dbWorld1, ih, List.replicate_succ]

theorem runEvents_getLogs (es : List LEvent) :
    ∀ (w : LogWorld) (i : Nat) (l : List String),
      w.cell = some i → w.heap i = some l →
      get_logs i (runEvents es w) = some (l ++ eventMsgs es) := by
  induction es with
  | nil =>
    intro w i l _ hh
    simp [runEvents, get_logs, eventMsgs, hh]
  | cons e es ih =>
    intro w i l hc hh
    cases e with
    | create =>
      simp only [runEvents, loggerCall_occupied w i hc, eventMsgs]
      exact ih w i l hc hh
    | log m =>
      simp only [runEvents, loggerCall_occupied w i hc, eventMsgs]
      have hc' : (Logger_log i m w).cell = some i := hc
      have hh' : (Logger_log i m w).heap i = some (l ++ [m]) := by
        simp [Logger_log, Function.update_same, hh]
      rw [ih _ i (l ++ [m]) hc' hh']
      simp

/-! ### The claims -/

/-- C1: for every cell starting empty, calling `getOrCreate`
(`DatabaseConnection()` or the decorated `Logger()`) twice in sequence
returns handles that are identical (the same underlying instance), and the
payload's construction side effect is observed exactly once after both
calls. -/
theorem getOrCreate_twice_identity :
    ((DatabaseConnection_call dbWorld0).1
        = (DatabaseConnection_call (DatabaseConnection_call dbWorld0).2).1) ∧
    (DatabaseConnection_call (DatabaseConnection_call dbWorld0).2).2.initCount = 1 ∧
    (DatabaseConnection_call (DatabaseConnection_call dbWorld0).2).2.alloc = 1 ∧
    ((Logger_call logWorld0).1 = (Logger_call (Logger_call logWorld0).2).1) ∧
    (Logger_call (Logger_call logWorld0).2).2.ctorCount = 1 := by
  refine ⟨rfl, rfl, rfl, rfl, rfl⟩

/-- C3: once a cell's instance slot is occupied, it never transitions back to
empty and the occupying value never changes, for every further sequence of
`getOrCreate` operations on the cell (both the decorator cell and the
`DatabaseConnection` class slot). -/
theorem occupied_terminal {A σ ε α : Type} (ctor : A → σ → Except ε α × σ)
    (argsList : List A) (v : α) (s : σ) (n : Nat) (w : DBWorld) (i : Nat)
    (hw : w._instance = some i) :
    (foldGets ctor argsList (some v) s).1 = some v ∧
    (dbIterate n w).2._instance = some i := by
  constructor
  · induction argsList generalizing s with
    | nil => rfl
    | cons a rest ih => simpa only [foldGets, get_instance] using ih s
  · have aux : ∀ m (w' : DBWorld), w'._instance = some i →
        (dbIterate m w').2._instance = some i := by
      intro m
      induction m with
      | zero => intro w' h; exact h
      | succ m ih =>
        intro w' h
        simp only [dbIterate]
        exact ih _ (dbCall_instance w' i h)
    exact aux n w hw

/-- C3 witness: a concrete occupied cell stays occupied with the same value
under a sequence of calls. -/
theorem occupied_terminal_witness :
    dbWorld1._instance = some 0 ∧
    ((foldGets argCtor [7, 8] (some 5) ()).1 = some 5 ∧
     (dbIterate 3 dbWorld1).2._instance = some 0) :=
  ⟨rfl, occupied_terminal argCtor [7, 8] 5 () 3 dbWorld1 0 rfl⟩

/-- C4: if the payload constructor raises during a `getOrCreate` call on an
empty cell, the error propagates unmodified to that caller, the cell remains
empty, and a subsequent `getOrCreate` call can retry and successfully
construct and cache the instance. -/
theorem ctor_failure_keeps_cell_empty {A σ ε α : Type}
    (ctor1 ctor2 : A → σ → Except ε α × σ) (a1 a2 : A) (s : σ)
    (e : ε) (s1 : σ) (v : α) (s2 : σ)
    (h1 : ctor1 a1 s = (.error e, s1)) (h2 : ctor2 a2 s1 = (.ok v, s2)) :
    get_instance ctor1 none a1 s = (.error e, none, s1) ∧
    get_instance ctor2 none a2 s1 = (.ok v, some v, s2) := by
  constructor
  · simp [get_instance, h1]
  · simp [get_instance, h2]

/-- C4 witness: the failure-then-retry constructor. -/
theorem ctor_failure_witness :
    retryCtor () false = (.error .typeError, true) ∧
    retryCtor () true = (.ok 0, true) ∧
    (get_instance retryCtor none () false = (.error .typeError, none, true) ∧
     get_instance retryCtor none () true = (.ok 0, some 0, true)) :=
  ⟨rfl, rfl,
    ctor_failure_keeps_cell_empty retryCtor retryCtor () () false
      PyErr.typeError true 0 true rfl rfl⟩

/-- C5: once a cell's first `getOrCreate` call succeeded, a later call with
different construction arguments returns the original instance and does not
run the constructor at all (its state is untouched): the later arguments are
silently ignored. -/
theorem later_args_ignored {A σ ε α : Type} (ctor : A → σ → Except ε α × σ)
    (a1 a2 : A) (s0 : σ) (v : α) (s1 : σ)
    (_h1 : get_instance ctor none a1 s0 = (.ok v, some v, s1)) :
    get_instance ctor (some v) a2 s1 = (.ok v, some v, s1) := by
  simp [get_instance]

/-- C5 witness: a first call with argument 5 caches instance 5; a second call
with argument 7 still returns 5. -/
theorem later_args_witness :
    get_instance argCtor none 5 () = (.ok 5, some 5, ()) ∧
    get_instance argCtor (some 5) 7 () = (.ok 5, some 5, ()) :=
  ⟨rfl, later_args_ignored argCtor 5 7 () 5 () rfl⟩

/-- C9: `execute_query` returns `"Executing query: "` followed by the query
and leaves the singleton cell and every field of the world (the instance
slot, the initialized flag, the heap with the instance's
`connection_string`/`connected` attributes) unchanged. -/
theorem execute_query_pure (i : Nat) (q : String) (w : DBWorld) :
    (execute_query i q w).1 = "Executing query: " ++ q ∧
    (execute_query i q w).2._instance = w._instance ∧
    (execute_query i q w).2._initialized = w._initialized ∧
    (execute_query i q w).2.heap = w.heap ∧
    (execute_query i q w).2 = w :=
  ⟨rfl, rfl, rfl, rfl, rfl⟩

/-- C10: calling the decorated `Logger` with arguments raises `TypeError`
when the cell is empty and leaves it empty, but the identical call succeeds
(silently ignoring the arguments) when the cell is already occupied. -/
theorem logger_args_cell_state (args : List String) (w1 w2 : LogWorld)
    (i : Nat) (hargs : args ≠ []) (h1 : w1.cell = none)
    (h2 : w2.cell = some i) :
    Logger_call_args args w1 = (.error .typeError, w1) ∧
    (Logger_call_args args w1).2.cell = none ∧
    Logger_call_args args w2 = (.ok i, w2) := by
  have hne : args.isEmpty = false := by
    cases args with
    | nil => exact absurd rfl hargs
    | cons a as => rfl
  refine ⟨?_, ?_, ?_⟩
  · simp [Logger_call_args, h1, hne]
  · simp [Logger_call_args, h1, hne]
  · simp [Logger_call_args, h2]

/-- C10 witness: `Logger("x")` raises before the first construction and the
cell stays empty; after a successful `Logger()`, `Logger("x")` returns the
cached instance. -/
theorem logger_args_witness :
    (["x"] ≠ ([] : List String) ∧ logWorld0.cell = none ∧
      logWorld1.cell = some 0) ∧
    (Logger_call_args ["x"] logWorld0 = (.error .typeError, logWorld0) ∧
     (Logger_call_args ["x"] logWorld0).2.cell = none ∧
     Logger_call_args ["x"] logWorld1 = (.ok 0, logWorld1)) :=
  ⟨⟨by decide, rfl, rfl⟩,
    logger_args_cell_state ["x"] logWorld0 logWorld1 0 (by decide) rfl rfl⟩

theorem exists_storing_of_isStoringB {p : PC} (h : isStoringB p = true) :
    ∃ id, p = PC.storing id := by
  cases p <;> simp_all [isStoringB]

/-- C2: for any number of concurrently racing callers on one cell, in every
reachable interleaving the payload constructor has executed at most once; it
has executed exactly once as soon as any caller has returned; and any two
callers that have returned observed the same instance. -/
theorem race_constructor_once {n : Nat} {s : Sys n} (h : SysReach s) :
    s.counter ≤ 1 ∧
    (∀ t1 t2 v1 v2, s.pc t1 = .finished v1 → s.pc t2 = .finished v2 →
      v1 = v2) ∧
    (∀ t v, s.pc t = .finished v → s.counter = 1) := by
  obtain ⟨I1, I2, I3, I4, I5, I6⟩ := sysInv_reach h
  refine ⟨?_, ?_, ?_⟩
  · cases hc : s.cell with
    | some v => exact le_of_eq (I5 v hc).1
    | none =>
      by_cases hs : ∃ u id, s.pc u = PC.storing id
      · obtain ⟨u, id, hu⟩ := hs
        exact le_of_eq (I3 u id hu).2.1
      · have h0 : s.counter = 0 := by
          refine I4 hc ?_
          intro u
          cases hb : isStoringB (s.pc u) with
          | false => rfl
          | true =>
            exfalso
            obtain ⟨id, hid⟩ := exists_storing_of_isStoringB hb
            exact hs ⟨u, id, hid⟩
        rw [h0]
        exact Nat.zero_le 1
  · intro t1 t2 v1 v2 h1 h2
    have e1 := I6 t1 v1 (Or.inr h1)
    have e2 := I6 t2 v2 (Or.inr h2)
    rw [e1] at e2
    exact Option.some.inj e2
  · intro t v ht
    exact (I5 v (I6 t v (Or.inr ht))).1

/-- C2 witness: a concrete two-thread interleaving in which thread 0
constructs and thread 1 takes the fast path; both return instance 0 and the
constructor ran once. -/
theorem race_constructor_once_witness :
    (⟨some 0, 1, none, ![PC.finished 0, PC.finished 0]⟩ : Sys 2).counter ≤ 1 ∧
    (∀ t1 t2 v1 v2,
      (⟨some 0, 1, none, ![PC.finished 0, PC.finished 0]⟩ : Sys 2).pc t1
          = .finished v1 →
      (⟨some 0, 1, none, ![PC.finished 0, PC.finished 0]⟩ : Sys 2).pc t2
          = .finished v2 → v1 = v2) ∧
    (∀ t v,
      (⟨some 0, 1, none, ![PC.finished 0, PC.finished 0]⟩ : Sys 2).pc t
          = .finished v →
      (⟨some 0, 1, none, ![PC.finished 0, PC.finished 0]⟩ : Sys 2).counter
          = 1) := by
  refine race_constructor_once ?_
  have h1 : SysStep (initSys 2)
      ⟨none, 0, none, ![PC.waitLock, PC.start]⟩ := by
    refine ⟨0, ?_⟩
    have hp : (![PC.waitLock, PC.start] : Fin 2 → PC)
        = Function.update (fun _ => PC.start) 0 PC.waitLock := by
      funext x; fin_cases x <;> rfl
    rw [hp]
    rfl
  have h2 : SysStep (⟨none, 0, none, ![PC.waitLock, PC.start]⟩ : Sys 2)
      ⟨none, 0, some 0, ![PC.lockedCheck, PC.start]⟩ := by
    refine ⟨0, ?_⟩
    have hp : (![PC.lockedCheck, PC.start] : Fin 2 → PC)
        = Function.update (![PC.waitLock, PC.start] : Fin 2 → PC) 0
            PC.lockedCheck := by
      funext x; fin_cases x <;> rfl
    rw [hp]
    rfl
  have h3 : SysStep (⟨none, 0, some 0, ![PC.lockedCheck, PC.start]⟩ : Sys 2)
      ⟨none, 0, some 0, ![PC.constructing, PC.start]⟩ := by
    refine ⟨0, ?_⟩
    have hp : (![PC.constructing, PC.start] : Fin 2 → PC)
        = Function.update (![PC.lockedCheck, PC.start] : Fin 2 → PC) 0
            PC.constructing := by
      funext x; fin_cases x <;> rfl
    rw [hp]
    rfl
  have h4 : SysStep (⟨none, 0, some 0, ![PC.constructing, PC.start]⟩ : Sys 2)
      ⟨none, 1, some 0, ![PC.storing 0, PC.start]⟩ := by
    refine ⟨0, ?_⟩
    have hp : (![PC.storing 0, PC.start] : Fin 2 → PC)
        = Function.update (![PC.constructing, PC.start] : Fin 2 → PC) 0
            (PC.storing 0) := by
      funext x; fin_cases x <;> rfl
    rw [hp]
    rfl
  have h5 : SysStep (⟨none, 1, some 0, ![PC.storing 0, PC.start]⟩ : Sys 2)
      ⟨some 0, 1, some 0, ![PC.exitRelease 0, PC.start]⟩ := by
    refine ⟨0, ?_⟩
    have hp : (![PC.exitRelease 0, PC.start] : Fin 2 → PC)
        = Function.update (![PC.storing 0, PC.start] : Fin 2 → PC) 0
            (PC.exitRelease 0) := by
      funext x; fin_cases x <;> rfl
    rw [hp]
    rfl
  have h6 : SysStep (⟨some 0, 1, some 0, ![PC.exitRelease 0, PC.start]⟩ : Sys 2)
      ⟨some 0, 1, none, ![PC.finished 0, PC.start]⟩ := by
    refine ⟨0, ?_⟩
    have hp : (![PC.finished 0, PC.start] : Fin 2 → PC)
        = Function.update (![PC.exitRelease 0, PC.start] : Fin 2 → PC) 0
            (PC.finished 0) := by
      funext x; fin_cases x <;> rfl
    rw [hp]
    rfl
  have h7 : SysStep (⟨some 0, 1, none, ![PC.finished 0, PC.start]⟩ : Sys 2)
      ⟨some 0, 1, none, ![PC.finished 0, PC.finished 0]⟩ := by
    refine ⟨1, ?_⟩
    have hp : (![PC.finished 0, PC.finished 0] : Fin 2 → PC)
        = Function.update (![PC.finished 0, PC.start] : Fin 2 → PC) 1
            (PC.finished 0) := by
      funext x; fin_cases x <;> rfl
    rw [hp]
    rfl
  exact .tail (.tail (.tail (.tail (.tail (.tail (.tail .refl h1) h2) h3)
    h4) h5) h6) h7

/-- C6: after any positive number of `DatabaseConnection()` calls, the
construction side effect has occurred exactly once, every returned handle is
identity-equal to every other (all are instance 0), and every returned
handle's `connection_string` field is `"localhost:5432"`. -/
theorem calls_exactly_once_scenario (n : Nat) (hn : 1 ≤ n) :
    (dbIterate n dbWorld0).2.initCount = 1 ∧
    (∀ h ∈ (dbIterate n dbWorld0).1, h = 0) ∧
    (∀ h ∈ (dbIterate n dbWorld0).1,
      connection_string_of h (dbIterate n dbWorld0).2
        = some "localhost:5432") := by
  obtain ⟨m, rfl⟩ : ∃ m, n = m + 1 := ⟨n - 1, by omega⟩
  have hstep : dbIterate (m + 1) dbWorld0 = (0 :: List.replicate m 0, dbWorld1) := by
    simp [dbIterate, dbCall_dbWorld0, dbIterate_dbWorld1]
  rw [hstep]
  have hmem : ∀ h ∈ 0 :: List.replicate m 0, h = (0 : Nat) := by
    intro h hh
    rcases List.mem_cons.mp hh with h0 | h0
    · exact h0
    · exact List.eq_of_mem_replicate h0
  refine ⟨rfl, hmem, ?_⟩
  intro h hh
  rw [hmem h hh]
  rfl

/-- C6 witness: the spec's 50-call scenario. -/
theorem calls_exactly_once_witness :
    1 ≤ 50 ∧
    ((dbIterate 50 dbWorld0).2.initCount = 1 ∧
     (∀ h ∈ (dbIterate 50 dbWorld0).1, h = 0) ∧
     (∀ h ∈ (dbIterate 50 dbWorld0).1,
       connection_string_of h (dbIterate 50 dbWorld0).2
         = some "localhost:5432")) :=
  ⟨by decide, calls_exactly_once_scenario 50 (by decide)⟩

/-- C7: two distinct decorated types each get their own
independently-constructed singleton: constructing the singleton for one key
leaves the other key's cell unchanged, each cell ends up holding its own
freshly constructed instance, and the two instances are distinct. -/
theorem per_key_independent (k1 k2 : Nat) (w : DecWorld) (hk : k1 ≠ k2)
    (h1 : w.cells k1 = none) (h2 : w.cells k2 = none) :
    ((singletonGet k1 w).2.cells k2 = w.cells k2) ∧
    ((singletonGet k1 w).2.cells k1 = some (singletonGet k1 w).1) ∧
    ((singletonGet k2 (singletonGet k1 w).2).2.cells k1
        = (singletonGet k1 w).2.cells k1) ∧
    ((singletonGet k2 (singletonGet k1 w).2).2.cells k2
        = some (singletonGet k2 (singletonGet k1 w).2).1) ∧
    ((singletonGet k2 (singletonGet k1 w).2).1 ≠ (singletonGet k1 w).1) := by
  have hget1 : singletonGet k1 w
      = (w.alloc, ⟨Function.update w.cells k1 (some w.alloc), w.alloc + 1⟩) := by
    simp [singletonGet, h1]
  have hc2' : Function.update w.cells k1 (some w.alloc) k2 = none := by
    rw [Function.update_noteq (Ne.symm hk)]
    exact h2
  have hget2 : singletonGet k2
        (⟨Function.update w.cells k1 (some w.alloc), w.alloc + 1⟩ : DecWorld)
      = (w.alloc + 1,
         ⟨Function.update (Function.update w.cells k1 (some w.alloc)) k2
            (some (w.alloc + 1)), w.alloc + 2⟩) := by
    simp [singletonGet, hc2']
  rw [hget1]
  dsimp only
  rw [hget2]
  dsimp only
  refine ⟨?_, ?_, ?_, ?_, ?_⟩
  · rw [Function.update_noteq (Ne.symm hk)]
  · rw [Function.update_same]
  · rw [Function.update_noteq hk]
  · rw [Function.update_same]
  · omega

/-- C7 witness: two concrete keys starting from the undecorated world. -/
theorem per_key_independent_witness :
    ((0 : Nat) ≠ 1 ∧ decWorld0.cells 0 = none ∧ decWorld0.cells 1 = none) ∧
    (((singletonGet 0 decWorld0).2.cells 1 = decWorld0.cells 1) ∧
     ((singletonGet 0 decWorld0).2.cells 0 = some (singletonGet 0 decWorld0).1) ∧
     ((singletonGet 1 (singletonGet 0 decWorld0).2).2.cells 0
         = (singletonGet 0 decWorld0).2.cells 0) ∧
     ((singletonGet 1 (singletonGet 0 decWorld0).2).2.cells 1
         = some (singletonGet 1 (singletonGet 0 decWorld0).2).1) ∧
     ((singletonGet 1 (singletonGet 0 decWorld0).2).1
         ≠ (singletonGet 0 decWorld0).1)) :=
  ⟨⟨by decide, rfl, rfl⟩, per_key_independent 0 1 decWorld0 (by decide) rfl rfl⟩

/-- C8: in any state where the singleton logger exists with an empty log (the
state right after the first handle was obtained), every further `Logger()`
call returns that same handle without changing anything, and running any
sequence of `Logger()`/`log` events leaves exactly the logged messages, in
order, in the one shared list returned by `get_logs`. -/
theorem logger_shared_logs (es : List LEvent) (w : LogWorld) (i : Nat)
    (hc : w.cell = some i) (hh : w.heap i = some []) :
    Logger_call w = (i, w) ∧
    get_logs i (runEvents es w) = some (eventMsgs es) := by
  refine ⟨loggerCall_occupied w i hc, ?_⟩
  simpa using runEvents_getLogs es w i [] hc hh

/-- C8 witness: the demonstration block's two messages, logged through two
separately obtained handles. -/
theorem logger_shared_logs_witness :
    (logWorld1.cell = some 0 ∧ logWorld1.heap 0 = some []) ∧
    (Logger_call logWorld1 = (0, logWorld1) ∧
     get_logs 0 (runEvents
        [.create, .log "First message", .create, .log "Second message"]
        logWorld1)
      = some (eventMsgs
        [.create, .log "First message", .create, .log "Second message"])) :=
  ⟨⟨rfl, rfl⟩,
    logger_shared_logs
      [.create, .log "First message", .create, .log "Second message"]
      logWorld1 0 rfl rfl⟩

end Singleton
